import Mathlib

/-!
# SysTick delay: a shallow embedding of `projects/systick/systick.c`

The program keeps one 32-bit counter `tDelay`.  The SysTick interrupt handler
decrements it while it is nonzero, `delay_ms` stores a value in it and then spins
until it reads zero, `init_systick` programs the three SysTick registers and `main`
sets up the clock, the timer and four LED pins before looping forever.

Machine words are natural numbers; every operation that can leave the 32-bit range
is reduced modulo `2 ^ 32` explicitly.  Memory-mapped registers are modelled as plain
32-bit storage cells: a read returns the last value written.
-/

namespace Systick

/-! ## Data model -/

/-- Modelled from the spec: the SysTick register block.  Its declaration lives in the
header `stm32f4xx.h`, which is not among the sources; the spec only speaks of
"hardware register state".  The fields are the three registers `systick.c` writes,
each a 32-bit word. -/
structure SysTick_Type where
  CTRL : Nat
  LOAD : Nat
  VAL : Nat
deriving DecidableEq

/-- Modelled from the spec: the part of the machine state `systick.c` reads or writes.
`tDelay` is the file-scope `static volatile uint32_t tDelay`; the other fields are the
registers reached through `SysTick`, `RCC` and `GPIOD`, whose declarations are in the
absent header `stm32f4xx.h`.  Every field holds a 32-bit word. -/
structure Machine where
  tDelay : Nat
  SysTick : SysTick_Type
  RCC_AHB1ENR : Nat
  GPIOD_MODER : Nat
  GPIOD_ODR : Nat
deriving DecidableEq

/-! ## The interrupt handler -/

/-- `void SysTick_Handler(void) { if (tDelay != 0x00) { tDelay--; } }`.
The decrement is the `uint32_t` one: it wraps modulo `2 ^ 32`. -/
def SysTick_Handler (m : Machine) : Machine :=
  if m.tDelay ≠ 0x00 then
    { m with tDelay := (m.tDelay + 4294967296 - 1) % 4294967296 }
  else
    m

/-! ## Timer configuration -/

/-- `void init_systick(uint32_t s, uint8_t cen)`, statement by statement. -/
def init_systick (s cen : Nat) (m : Machine) : Machine :=
  -- SysTick->CTRL = 0x00000;
  let m := { m with SysTick := { m.SysTick with CTRL := 0x00000 } }
  -- SysTick->CTRL |= (0 << 2);
  let m := { m with SysTick := { m.SysTick with CTRL := m.SysTick.CTRL ||| (0 <<< 2) } }
  -- SysTick->CTRL |= ((uint32_t)cen << 1);
  let m := { m with SysTick :=
    { m.SysTick with CTRL := m.SysTick.CTRL ||| ((cen <<< 1) % 4294967296) } }
  -- SysTick->LOAD = s;
  let m := { m with SysTick := { m.SysTick with LOAD := s } }
  -- SysTick->VAL = 0;
  let m := { m with SysTick := { m.SysTick with VAL := 0 } }
  -- SysTick->CTRL |= (1 << 0);
  let m := { m with SysTick := { m.SysTick with CTRL := m.SysTick.CTRL ||| (1 <<< 0) } }
  m

/-! ## The blocking delay -/

/-- What can happen while `delay_ms` spins: the main context evaluates the loop
condition `tDelay != 0` once (`poll`), or the timer interrupt preempts it and
`SysTick_Handler` runs to completion (`tick`). -/
inductive Step where
  | poll : Step
  | tick : Step
deriving DecidableEq

/-- The effect of one step on the machine, leaving aside whether the loop exits:
a poll only reads, a tick is one handler invocation. -/
def Step.apply (m : Machine) : Step → Machine
  | Step.poll => m
  | Step.tick => SysTick_Handler m

/-- The machine after a sequence of steps, none of which ended the loop. -/
def run (m : Machine) (steps : List Step) : Machine :=
  steps.foldl Step.apply m

/-- Number of handler invocations in a sequence of steps. -/
def ticks (steps : List Step) : Nat :=
  steps.count Step.tick

/-- The loop `while(tDelay != 0);` run against a schedule of steps.  At a poll the
condition is evaluated: when it is false the loop exits and the machine is returned
together with the steps not yet consumed; when it is true the (empty) body runs and
the loop continues.  `none` means the schedule ended with the loop still spinning. -/
def delay_loop (m : Machine) : List Step → Option (Machine × List Step)
  | [] => none
  | Step.tick :: rest => delay_loop (SysTick_Handler m) rest
  | Step.poll :: rest => if m.tDelay ≠ 0 then delay_loop m rest else some (m, rest)

/-- The first statement of `delay_ms`: `tDelay = s;`. -/
def delay_ms_assign (s : Nat) (m : Machine) : Machine :=
  { m with tDelay := s }

/-- `void delay_ms(volatile uint32_t s) { tDelay = s; while(tDelay != 0); }`. -/
def delay_ms (s : Nat) (m : Machine) (sched : List Step) : Option (Machine × List Step) :=
  -- tDelay = s;
  let m := delay_ms_assign s m
  -- while(tDelay != 0);
  delay_loop m sched

/-- The first `N` steps of an unending schedule. -/
def upto (σ : Nat → Step) (N : Nat) : List Step :=
  (List.range N).map σ

/-- A schedule that alternates one tick and one poll, starting with a tick. -/
def alternating (j : Nat) : Step :=
  if j % 2 = 0 then Step.tick else Step.poll

/-! ## `main` -/

/-- Clock rate `set_sysclk_to_168` establishes, in Hz, as `main` documents it
("set system clock to 168 Mhz"). -/
def SYSCLK_HZ : Nat := 168000000

/-- Rate at which the SysTick counter counts when its clock source is AHB/8, in Hz
("SysTick will be running at 168Mhz/8 = 21Mhz"). -/
def SYSTICK_HZ : Nat := SYSCLK_HZ / 8

/-- The two statements of `main` that make pins 12-15 outputs:
`GPIOD->MODER &= 0x00FFFFFF; GPIOD->MODER |= 0x55000000;`. -/
def main_moder (m : Machine) : Machine :=
  -- GPIOD->MODER &= 0x00FFFFFF;
  let m := { m with GPIOD_MODER := m.GPIOD_MODER &&& 0x00FFFFFF }
  -- GPIOD->MODER |= 0x55000000;
  let m := { m with GPIOD_MODER := m.GPIOD_MODER ||| 0x55000000 }
  m

/-- Everything `main` does before its endless loop.  `set_sysclk_to_168` is defined in
`system_stm32f4xx.c`, outside the sources, and is taken as a parameter. -/
def main_setup (set_sysclk_to_168 : Machine → Machine) (m : Machine) : Machine :=
  -- set_sysclk_to_168();
  let m := set_sysclk_to_168 m
  -- init_systick(21000, 1);
  let m := init_systick 21000 1 m
  -- RCC->AHB1ENR |= 0x00000008;
  let m := { m with RCC_AHB1ENR := m.RCC_AHB1ENR ||| 0x00000008 }
  -- GPIOD->MODER &= 0x00FFFFFF;  GPIOD->MODER |= 0x55000000;
  let m := main_moder m
  -- GPIOD->ODR |= 0xF000;
  let m := { m with GPIOD_ODR := m.GPIOD_ODR ||| 0xF000 }
  m

/-- One round of `while(1) { delay_ms(1000); GPIOD->ODR ^= 0xF000; }`. -/
def main_round (m : Machine) (sched : List Step) : Option (Machine × List Step) :=
  match delay_ms 1000 m sched with
  | none => none
  | some (m, rest) => some ({ m with GPIOD_ODR := m.GPIOD_ODR ^^^ 0xF000 }, rest)

/-! ## The handler and the counter -/

theorem SysTick_Handler_zero (m : Machine) (h : m.tDelay = 0) : SysTick_Handler m = m := by
  simp [SysTick_Handler, h]

theorem SysTick_Handler_tDelay (m : Machine) (h : m.tDelay < 4294967296) :
    (SysTick_Handler m).tDelay = m.tDelay - 1 := by
  unfold SysTick_Handler
  split
  · show (m.tDelay + 4294967296 - 1) % 4294967296 = m.tDelay - 1
    omega
  · omega

theorem iterate_tDelay (k : Nat) (m : Machine) (h : m.tDelay < 4294967296) :
    (SysTick_Handler^[k] m).tDelay = m.tDelay - k := by
  induction k generalizing m with
  | zero => simp
  | succ k ih =>
    rw [Function.iterate_succ_apply, ih _ (by rw [SysTick_Handler_tDelay m h]; omega),
      SysTick_Handler_tDelay m h]
    omega

theorem run_nil (m : Machine) : run m [] = m := rfl

theorem run_cons (m : Machine) (s : Step) (l : List Step) :
    run m (s :: l) = run (s.apply m) l := rfl

theorem ticks_nil : ticks [] = 0 := rfl

theorem ticks_tick (l : List Step) : ticks (Step.tick :: l) = ticks l + 1 := by
  simp [ticks]

theorem ticks_poll (l : List Step) : ticks (Step.poll :: l) = ticks l := by
  simp [ticks]

theorem run_tDelay (steps : List Step) (m : Machine) (h : m.tDelay < 4294967296) :
    (run m steps).tDelay = m.tDelay - ticks steps := by
  induction steps generalizing m with
  | nil => simp [run_nil, ticks_nil]
  | cons s l ih =>
    cases s with
    | poll => rw [run_cons, ticks_poll]; exact ih m h
    | tick =>
      rw [run_cons, ticks_tick]
      show (run (SysTick_Handler m) l).tDelay = _
      rw [ih _ (by rw [SysTick_Handler_tDelay m h]; omega), SysTick_Handler_tDelay m h]
      omega

theorem SysTick_Handler_others (m : Machine) :
    (SysTick_Handler m).SysTick = m.SysTick ∧
    (SysTick_Handler m).RCC_AHB1ENR = m.RCC_AHB1ENR ∧
    (SysTick_Handler m).GPIOD_MODER = m.GPIOD_MODER ∧
    (SysTick_Handler m).GPIOD_ODR = m.GPIOD_ODR := by
  unfold SysTick_Handler
  split <;> exact ⟨rfl, rfl, rfl, rfl⟩

theorem run_frame (steps : List Step) (m : Machine) :
    run m steps = { m with tDelay := (run m steps).tDelay } := by
  induction steps generalizing m with
  | nil => rfl
  | cons s l ih =>
    cases s with
    | poll => rw [run_cons]; exact ih m
    | tick =>
      rw [run_cons]
      show run (SysTick_Handler m) l = { m with tDelay := (run (SysTick_Handler m) l).tDelay }
      obtain ⟨h1, h2, h3, h4⟩ := SysTick_Handler_others m
      conv_lhs => rw [ih (SysTick_Handler m)]
      simp [h1, h2, h3, h4]

/-! ## The polling loop against a schedule -/

theorem delay_loop_append (pre rest : List Step) (m : Machine)
    (h : ∀ p q, pre = p ++ Step.poll :: q → (run m p).tDelay ≠ 0) :
    delay_loop m (pre ++ rest) = delay_loop (run m pre) rest := by
  induction pre generalizing m with
  | nil => rfl
  | cons s l ih =>
    cases s with
    | tick =>
      show delay_loop (SysTick_Handler m) (l ++ rest) = delay_loop (run (SysTick_Handler m) l) rest
      apply ih
      intro p q hpq
      exact h (Step.tick :: p) q (by rw [hpq]; rfl)
    | poll =>
      have h0 : m.tDelay ≠ 0 := h [] l rfl
      show (if m.tDelay ≠ 0 then delay_loop m (l ++ rest) else some (m, l ++ rest)) =
        delay_loop (run m l) rest
      rw [if_pos h0]
      apply ih
      intro p q hpq
      exact h (Step.poll :: p) q (by rw [hpq]; rfl)

theorem delay_loop_some (sched : List Step) (m m1 : Machine) (rest : List Step)
    (h : delay_loop m sched = some (m1, rest)) :
    ∃ pre, sched = pre ++ Step.poll :: rest ∧ m1 = run m pre ∧ m1.tDelay = 0 ∧
      ∀ p q, pre = p ++ Step.poll :: q → (run m p).tDelay ≠ 0 := by
  induction sched generalizing m with
  | nil => simp [delay_loop] at h
  | cons s l ih =>
    cases s with
    | tick =>
      obtain ⟨pre, h1, h2, h3, h4⟩ := ih (SysTick_Handler m) h
      refine ⟨Step.tick :: pre, by rw [h1]; rfl, h2, h3, ?_⟩
      intro p q hpq
      cases p with
      | nil => simp at hpq
      | cons a p1 =>
        simp only [List.cons_append, List.cons.injEq] at hpq
        obtain ⟨ha, hp⟩ := hpq
        subst ha
        exact h4 p1 q hp
    | poll =>
      by_cases h0 : m.tDelay = 0
      · have h5 : some (m, l) = some (m1, rest) := by
          have : delay_loop m (Step.poll :: l) = some (m, l) := by
            show (if m.tDelay ≠ 0 then delay_loop m l else some (m, l)) = some (m, l)
            rw [if_neg (by simpa using h0)]
          rw [← this]; exact h
        simp only [Option.some.injEq, Prod.mk.injEq] at h5
        obtain ⟨hm, hl⟩ := h5
        subst hm; subst hl
        exact ⟨[], rfl, rfl, h0, by intro p q hpq; simp at hpq⟩
      · have h5 : delay_loop m l = some (m1, rest) := by
          have : delay_loop m (Step.poll :: l) = delay_loop m l := by
            show (if m.tDelay ≠ 0 then delay_loop m l else some (m, l)) = delay_loop m l
            rw [if_pos h0]
          rw [← this]; exact h
        obtain ⟨pre, h1, h2, h3, h4⟩ := ih m h5
        refine ⟨Step.poll :: pre, by rw [h1]; rfl, h2, h3, ?_⟩
        intro p q hpq
        cases p with
        | nil => exact h0
        | cons a p1 =>
          simp only [List.cons_append, List.cons.injEq] at hpq
          obtain ⟨ha, hp⟩ := hpq
          subst ha
          exact h4 p1 q hp

theorem loop_returns (p q : List Step) (m : Machine) (h : (run m p).tDelay = 0) :
    delay_loop m (p ++ Step.poll :: q) ≠ none := by
  induction p generalizing m with
  | nil =>
    have h0 : m.tDelay = 0 := h
    show (if m.tDelay ≠ 0 then delay_loop m q else some (m, q)) ≠ none
    rw [if_neg (by simpa using h0)]
    simp
  | cons s l ih =>
    cases s with
    | tick => exact ih (SysTick_Handler m) h
    | poll =>
      show (if m.tDelay ≠ 0 then delay_loop m (l ++ Step.poll :: q)
        else some (m, l ++ Step.poll :: q)) ≠ none
      split
      · exact ih m h
      · simp

theorem run_to_zero (pre : List Step) (m : Machine) (h : m.tDelay < 4294967296)
    (hz : m.tDelay ≤ ticks pre) : run m pre = { m with tDelay := 0 } := by
  rw [run_frame pre m, run_tDelay pre m h]
  have : m.tDelay - ticks pre = 0 := by omega
  rw [this]

theorem loop_exit (pre rest : List Step) (m : Machine) (h : m.tDelay < 4294967296)
    (hz : m.tDelay ≤ ticks pre)
    (hfirst : ∀ p q, pre = p ++ Step.poll :: q → ticks p < m.tDelay) :
    delay_loop m (pre ++ Step.poll :: rest) = some ({ m with tDelay := 0 }, rest) := by
  rw [delay_loop_append pre _ m, run_to_zero pre m h hz]
  · rfl
  · intro p q hpq
    rw [run_tDelay p m h]
    have := hfirst p q hpq
    omega

theorem loop_spin (sched : List Step) (m : Machine) (h : m.tDelay < 4294967296)
    (hnever : ∀ p q, sched = p ++ Step.poll :: q → ticks p < m.tDelay) :
    delay_loop m sched = none := by
  have := delay_loop_append sched [] m (by
    intro p q hpq
    rw [run_tDelay p m h]
    have := hnever p q hpq
    omega)
  rw [List.append_nil] at this
  rw [this]; rfl

theorem loop_some (sched rest : List Step) (m m1 : Machine) (h : m.tDelay < 4294967296)
    (hs : delay_loop m sched = some (m1, rest)) :
    ∃ pre, sched = pre ++ Step.poll :: rest ∧ m.tDelay ≤ ticks pre ∧
      (∀ p q, pre = p ++ Step.poll :: q → ticks p < m.tDelay) ∧
      m1 = { m with tDelay := 0 } := by
  obtain ⟨pre, h1, h2, h3, h4⟩ := delay_loop_some sched m m1 rest hs
  have hz : m.tDelay ≤ ticks pre := by
    rw [h2, run_tDelay pre m h] at h3
    omega
  refine ⟨pre, h1, hz, ?_, ?_⟩
  · intro p q hpq
    have := h4 p q hpq
    rw [run_tDelay p m h] at this
    omega
  · rw [h2]; exact run_to_zero pre m h hz

/-! ## Unending schedules -/

theorem upto_length (σ : Nat → Step) (N : Nat) : (upto σ N).length = N := by
  simp [upto]

theorem upto_split (σ : Nat → Step) (i N : Nat) (h : i < N) :
    upto σ N = upto σ i ++ σ i :: (upto σ N).drop (i + 1) := by
  have hlen : i < (upto σ N).length := by rw [upto_length]; exact h
  have h1 : (upto σ N).take i = upto σ i := by
    simp [upto, ← List.map_take, List.take_range, Nat.min_eq_left (Nat.le_of_lt h)]
  have h2 : (upto σ N).drop i = σ i :: (upto σ N).drop (i + 1) := by
    rw [List.drop_eq_getElem_cons hlen]
    simp [upto]
  calc upto σ N = (upto σ N).take i ++ (upto σ N).drop i := (List.take_append_drop i _).symm
    _ = upto σ i ++ σ i :: (upto σ N).drop (i + 1) := by rw [h1, h2]

theorem upto_decompose (σ : Nat → Step) (N : Nat) (p q : List Step) (s : Step)
    (h : upto σ N = p ++ s :: q) :
    p.length < N ∧ p = upto σ p.length ∧ σ p.length = s := by
  have hlen : p.length < N := by
    have := congrArg List.length h
    rw [upto_length] at this
    simp at this
    omega
  have h2 := upto_split σ p.length N hlen
  rw [h] at h2
  have h3 := List.append_inj h2 (by rw [upto_length])
  obtain ⟨ha, hb⟩ := h3
  simp only [List.cons.injEq] at hb
  exact ⟨hlen, ha, hb.1.symm⟩

theorem stream_loop_exit (σ : Nat → Step) (i N : Nat) (m : Machine)
    (h : m.tDelay < 4294967296) (hp : σ i = Step.poll) (hz : m.tDelay ≤ ticks (upto σ i))
    (hfirst : ∀ j, j < i → σ j = Step.poll → ticks (upto σ j) < m.tDelay) (hN : i < N) :
    delay_loop m (upto σ N) = some ({ m with tDelay := 0 }, (upto σ N).drop (i + 1)) := by
  conv_lhs => rw [upto_split σ i N hN, hp]
  apply loop_exit _ _ m h hz
  intro p q hpq
  obtain ⟨h1, h2, h3⟩ := upto_decompose σ i p q Step.poll hpq
  rw [h2]
  exact hfirst p.length h1 h3

theorem stream_loop_spin (σ : Nat → Step) (N : Nat) (m : Machine)
    (h : m.tDelay < 4294967296)
    (hnever : ∀ j, j < N → σ j = Step.poll → ticks (upto σ j) < m.tDelay) :
    delay_loop m (upto σ N) = none := by
  apply loop_spin _ m h
  intro p q hpq
  obtain ⟨h1, h2, h3⟩ := upto_decompose σ N p q Step.poll hpq
  rw [h2]
  exact hnever p.length h1 h3

/-! ## Schedules made of one kind of step -/

theorem run_replicate_tick (k : Nat) (m : Machine) :
    run m (List.replicate k Step.tick) = SysTick_Handler^[k] m := by
  induction k generalizing m with
  | zero => rfl
  | succ k ih =>
    rw [List.replicate_succ, run_cons, Function.iterate_succ_apply]
    exact ih (SysTick_Handler m)

theorem ticks_replicate_tick (k : Nat) : ticks (List.replicate k Step.tick) = k := by
  simp [ticks]

theorem replicate_tick_no_poll (k : Nat) (p q : List Step) :
    List.replicate k Step.tick ≠ p ++ Step.poll :: q := by
  intro h
  have hmem : Step.poll ∈ List.replicate k Step.tick := by
    rw [h]; simp
  have := List.eq_of_mem_replicate hmem
  exact Step.noConfusion this

theorem iterate_frame (k : Nat) (m : Machine) (h : m.tDelay < 4294967296) :
    SysTick_Handler^[k] m = { m with tDelay := m.tDelay - k } := by
  rw [← run_replicate_tick, run_frame, run_tDelay _ m h, ticks_replicate_tick]

theorem loop_no_tick (sched : List Step) (m : Machine) (h0 : m.tDelay ≠ 0)
    (hno : ticks sched = 0) : delay_loop m sched = none := by
  induction sched with
  | nil => rfl
  | cons s l ih =>
    cases s with
    | tick => rw [ticks_tick] at hno; omega
    | poll =>
      rw [ticks_poll] at hno
      show (if m.tDelay ≠ 0 then delay_loop m l else some (m, l)) = none
      rw [if_pos h0]
      exact ih hno

theorem run_no_tick (sched : List Step) (m : Machine) (hno : ticks sched = 0) :
    run m sched = m := by
  induction sched with
  | nil => rfl
  | cons s l ih =>
    cases s with
    | tick => rw [ticks_tick] at hno; omega
    | poll =>
      rw [ticks_poll] at hno
      rw [run_cons]
      exact ih hno

theorem ticks_replicate_poll (k : Nat) : ticks (List.replicate k Step.poll) = 0 := by
  simp [ticks, List.count_replicate]

theorem upto_const (s : Step) (N : Nat) : upto (fun _ => s) N = List.replicate N s := by
  induction N with
  | zero => rfl
  | succ N ih =>
    have : upto (fun _ => s) (N + 1) = upto (fun _ => s) N ++ [s] := by
      simp [upto, List.range_succ]
    rw [this, ih, List.replicate_succ']

/-! ## The counter under handler invocations -/

/-- C1: for every 32-bit `n`, starting from the state left by the assignment
`tDelay = n` of `delay_ms(n)` (whatever the machine held before), after `k ≤ n`
invocations of `SysTick_Handler` the counter is `n - k` and nothing else has changed;
it is zero after exactly `n` invocations, nonzero after any smaller number, and in
particular nonzero after `n - 1` invocations when `n > 0`. -/
theorem counter_after_k_ticks (n : Nat) (hn : n < 4294967296) (m : Machine) :
    (∀ k, k ≤ n → (SysTick_Handler^[k] (delay_ms_assign n m)).tDelay = n - k) ∧
    (∀ k, k ≤ n → SysTick_Handler^[k] (delay_ms_assign n m) = { m with tDelay := n - k }) ∧
    (SysTick_Handler^[n] (delay_ms_assign n m)).tDelay = 0 ∧
    (∀ k, k < n → (SysTick_Handler^[k] (delay_ms_assign n m)).tDelay ≠ 0) ∧
    (0 < n → (SysTick_Handler^[n - 1] (delay_ms_assign n m)).tDelay ≠ 0) := by
  have key : ∀ k, (SysTick_Handler^[k] (delay_ms_assign n m)).tDelay = n - k :=
    fun k => iterate_tDelay k (delay_ms_assign n m) hn
  refine ⟨fun k _ => key k, ?_, ?_, ?_, ?_⟩
  · intro k _
    rw [iterate_frame k (delay_ms_assign n m) hn]
    rfl
  · rw [key]; omega
  · intro k hk; rw [key]; omega
  · intro h; rw [key]; omega

/-- Witness for C1 at `n = 3`, from a machine whose counter held 7. -/
theorem counter_after_k_ticks_witness :
    (3 : Nat) < 4294967296 ∧
    (SysTick_Handler^[3] (delay_ms_assign 3 ⟨7, ⟨0, 0, 0⟩, 0, 0, 0⟩)).tDelay = 0 ∧
    (SysTick_Handler^[2] (delay_ms_assign 3 ⟨7, ⟨0, 0, 0⟩, 0, 0, 0⟩)).tDelay ≠ 0 :=
  ⟨by decide,
   (counter_after_k_ticks 3 (by decide) ⟨7, ⟨0, 0, 0⟩, 0, 0, 0⟩).2.2.1,
   (counter_after_k_ticks 3 (by decide) ⟨7, ⟨0, 0, 0⟩, 0, 0, 0⟩).2.2.2.1 2 (by decide)⟩

/-- C3: saturation.  A handler invocation on a zero counter changes nothing, so
further invocations keep it zero; from any 32-bit starting value `c`, after `k`
invocations the counter is `c - k` when `k ≤ c` and `0` otherwise, hence never above
`c`: it does not wrap.  From 3, three invocations give 0 and a fourth still gives 0,
not `0xFFFFFFFF`. -/
theorem counter_saturates (m : Machine) (hc : m.tDelay < 4294967296) :
    (m.tDelay = 0 → SysTick_Handler m = m) ∧
    (m.tDelay = 0 → ∀ k, SysTick_Handler^[k] m = m) ∧
    (∀ k, (SysTick_Handler^[k] m).tDelay = if k ≤ m.tDelay then m.tDelay - k else 0) ∧
    (∀ k, (SysTick_Handler^[k] m).tDelay ≤ m.tDelay) ∧
    (SysTick_Handler^[3] (delay_ms_assign 3 m)).tDelay = 0 ∧
    (SysTick_Handler^[4] (delay_ms_assign 3 m)).tDelay = 0 ∧
    (SysTick_Handler^[4] (delay_ms_assign 3 m)).tDelay ≠ 0xFFFFFFFF := by
  have h3 : ∀ k, (SysTick_Handler^[k] (delay_ms_assign 3 m)).tDelay = 3 - k :=
    fun k => iterate_tDelay k (delay_ms_assign 3 m) (show (3 : Nat) < 4294967296 by decide)
  refine ⟨SysTick_Handler_zero m, ?_, ?_, ?_, ?_, ?_, ?_⟩
  · intro h0 k
    rw [iterate_frame k m hc, h0, Nat.zero_sub, ← h0]
  · intro k
    rw [iterate_tDelay k m hc]
    split <;> omega
  · intro k
    rw [iterate_tDelay k m hc]
    omega
  · rw [h3]
  · rw [h3]
  · rw [h3]; decide

/-- Witness for C3 on a machine whose counter is already zero. -/
theorem counter_saturates_witness :
    SysTick_Handler ⟨0, ⟨3, 21000, 0⟩, 8, 0, 0⟩ = ⟨0, ⟨3, 21000, 0⟩, 8, 0, 0⟩ ∧
    (SysTick_Handler^[5] ⟨0, ⟨3, 21000, 0⟩, 8, 0, 0⟩).tDelay = 0 :=
  ⟨(counter_saturates ⟨0, ⟨3, 21000, 0⟩, 8, 0, 0⟩ (by decide)).1 rfl,
   by
    have h := (counter_saturates ⟨0, ⟨3, 21000, 0⟩, 8, 0, 0⟩ (by decide)).2.2.1 5
    simpa using h⟩

/-! ## The delay against a schedule -/

/-- C4: `delay_ms(0)` needs no handler invocation.  Whatever the counter held
before, the assignment leaves it zero, so the loop exits at its first evaluation of
the condition, consuming that poll and nothing else; handler invocations landing
between the assignment and that first check leave the counter zero, and the call
still returns at the first check, with the counter zero and the rest of the machine
untouched. -/
theorem delay_zero_returns_at_first_check (m : Machine) :
    (delay_ms_assign 0 m).tDelay = 0 ∧
    (∀ rest, delay_ms 0 m (Step.poll :: rest) = some ({ m with tDelay := 0 }, rest)) ∧
    (∀ k, SysTick_Handler^[k] (delay_ms_assign 0 m) = delay_ms_assign 0 m) ∧
    (∀ k rest, delay_ms 0 m (List.replicate k Step.tick ++ Step.poll :: rest) =
      some ({ m with tDelay := 0 }, rest)) := by
  refine ⟨rfl, fun rest => rfl, ?_, ?_⟩
  · intro k
    rw [iterate_frame k (delay_ms_assign 0 m) (show (0 : Nat) < 4294967296 by decide)]
    show ({ m with tDelay := 0 - k } : Machine) = { m with tDelay := 0 }
    rw [Nat.zero_sub]
  · intro k rest
    show delay_loop (delay_ms_assign 0 m) _ = _
    rw [loop_exit _ rest (delay_ms_assign 0 m) (show (0 : Nat) < 4294967296 by decide)
      (Nat.zero_le _)]
    · rfl
    · intro p q hpq
      exact absurd hpq (replicate_tick_no_poll k p q)

/-- C5: without handler invocations `delay_ms(n)` with `n > 0` never returns.  On
any schedule holding no tick, however long, the loop is still spinning when the
schedule ends, the counter still holds `n` and the condition `tDelay != 0` is still
true; this covers every number of polls and every finite stretch of the unending
all-poll schedule. -/
theorem delay_hangs_without_ticks (n : Nat) (hpos : 0 < n) (m : Machine) :
    (∀ k, delay_ms n m (List.replicate k Step.poll) = none) ∧
    (∀ N, delay_ms n m (upto (fun _ => Step.poll) N) = none) ∧
    (∀ sched, ticks sched = 0 → delay_ms n m sched = none) ∧
    (∀ k, run (delay_ms_assign n m) (List.replicate k Step.poll) = delay_ms_assign n m) ∧
    (∀ k, (run (delay_ms_assign n m) (List.replicate k Step.poll)).tDelay = n) ∧
    (∀ k, (run (delay_ms_assign n m) (List.replicate k Step.poll)).tDelay ≠ 0) := by
  have hne : (delay_ms_assign n m).tDelay ≠ 0 := by
    show n ≠ 0
    omega
  have hrun : ∀ k, run (delay_ms_assign n m) (List.replicate k Step.poll) =
      delay_ms_assign n m := fun k => run_no_tick _ _ (ticks_replicate_poll k)
  refine ⟨?_, ?_, ?_, hrun, ?_, ?_⟩
  · intro k
    exact loop_no_tick _ _ hne (ticks_replicate_poll k)
  · intro N
    rw [upto_const]
    exact loop_no_tick _ _ hne (ticks_replicate_poll N)
  · intro sched hs
    exact loop_no_tick _ _ hne hs
  · intro k; rw [hrun k]; rfl
  · intro k; rw [hrun k]; exact hne

/-- Witness for C5: `delay_ms(1000)` against four polls and no tick. -/
theorem delay_hangs_without_ticks_witness :
    (0 : Nat) < 1000 ∧
    delay_ms 1000 ⟨0, ⟨3, 21000, 0⟩, 8, 0, 0⟩
      [Step.poll, Step.poll, Step.poll, Step.poll] = none :=
  ⟨by decide,
   (delay_hangs_without_ticks 1000 (by decide) ⟨0, ⟨3, 21000, 0⟩, 8, 0, 0⟩).1 4⟩

/-- C2: model `delay_ms(n)` as the assignment followed by any interleaving of polls
and ticks.  For every 32-bit `n`: the counter a poll would read after the steps `pre`
is zero exactly when `pre` holds at least `n` ticks, and depends on `pre` only through
its ticks; on a finite schedule the call returns exactly when the schedule has a poll
preceded by at least `n` ticks, it returns at the first such poll with the counter zero
and the rest of the machine as it was, and otherwise it is still spinning when the
schedule ends; on an unending schedule the same holds of every finite stretch, so the
call returns at the first poll after the `n`-th tick and never returns if there is no
such poll.  Instances: `delay_ms(1000)` returns at the poll following 1000 ticks and
not with fewer; a counter set to 5 reads zero after 5 ticks whatever polls lie
between. -/
theorem delay_returns_at_first_poll_after_n_ticks :
    (∀ n, n < 4294967296 → ∀ m : Machine,
      (∀ pre, (run (delay_ms_assign n m) pre).tDelay = 0 ↔ n ≤ ticks pre) ∧
      (∀ pre, run (delay_ms_assign n m) pre =
        run (delay_ms_assign n m) (List.replicate (ticks pre) Step.tick)) ∧
      (∀ sched m1 rest, delay_ms n m sched = some (m1, rest) ↔
        ∃ pre, sched = pre ++ Step.poll :: rest ∧ n ≤ ticks pre ∧
          (∀ p q, pre = p ++ Step.poll :: q → ticks p < n) ∧
          m1 = { m with tDelay := 0 }) ∧
      (∀ sched, delay_ms n m sched = none ↔
        ∀ p q, sched = p ++ Step.poll :: q → ticks p < n) ∧
      (∀ σ i, σ i = Step.poll → n ≤ ticks (upto σ i) →
        (∀ j, j < i → σ j = Step.poll → ticks (upto σ j) < n) →
        ∀ N, delay_ms n m (upto σ N) =
          if i < N then some ({ m with tDelay := 0 }, (upto σ N).drop (i + 1)) else none) ∧
      (∀ σ, (∀ j, σ j = Step.poll → ticks (upto σ j) < n) →
        ∀ N, delay_ms n m (upto σ N) = none)) ∧
    (∀ m : Machine,
      delay_ms 1000 m (List.replicate 1000 Step.tick ++ [Step.poll]) =
        some ({ m with tDelay := 0 }, []) ∧
      (∀ k j, k < 1000 →
        delay_ms 1000 m (List.replicate k Step.tick ++ List.replicate j Step.poll) = none)) ∧
    (∀ m : Machine, ∀ pre, ticks pre = 5 → (run (delay_ms_assign 5 m) pre).tDelay = 0) ∧
    (∀ m : Machine, ∀ pre, ticks pre < 5 → (run (delay_ms_assign 5 m) pre).tDelay ≠ 0) := by
  have hrunz : ∀ n, n < 4294967296 → ∀ (m : Machine) pre,
      ((run (delay_ms_assign n m) pre).tDelay = 0 ↔ n ≤ ticks pre) := by
    intro n hn m pre
    rw [run_tDelay pre (delay_ms_assign n m) hn]
    show n - ticks pre = 0 ↔ n ≤ ticks pre
    omega
  have hsome : ∀ n, n < 4294967296 → ∀ (m : Machine) sched m1 rest,
      (delay_ms n m sched = some (m1, rest) ↔
        ∃ pre, sched = pre ++ Step.poll :: rest ∧ n ≤ ticks pre ∧
          (∀ p q, pre = p ++ Step.poll :: q → ticks p < n) ∧
          m1 = { m with tDelay := 0 }) := by
    intro n hn m sched m1 rest
    constructor
    · intro h
      exact loop_some sched rest (delay_ms_assign n m) m1 hn h
    · rintro ⟨pre, h1, h2, h3, h4⟩
      rw [h1, h4]
      exact loop_exit pre rest (delay_ms_assign n m) hn h2 h3
  refine ⟨?_, ?_, ?_, ?_⟩
  · intro n hn m
    refine ⟨hrunz n hn m, ?_, hsome n hn m, ?_, ?_, ?_⟩
    · intro pre
      rw [run_frame pre, run_frame (List.replicate _ _), run_tDelay _ _ hn, run_tDelay _ _ hn,
        ticks_replicate_tick]
    · intro sched
      constructor
      · intro h p q hpq
        by_contra hlt
        have hz : (run (delay_ms_assign n m) p).tDelay = 0 :=
          (hrunz n hn m p).2 (by omega)
        rw [hpq] at h
        exact loop_returns p q (delay_ms_assign n m) hz h
      · intro h
        exact loop_spin sched (delay_ms_assign n m) hn h
    · intro σ i hp hz hfirst N
      split
      · next hN => exact stream_loop_exit σ i N (delay_ms_assign n m) hn hp hz hfirst hN
      · next hN =>
        apply stream_loop_spin σ N (delay_ms_assign n m) hn
        intro j hj
        exact hfirst j (by omega)
    · intro σ hnever N
      apply stream_loop_spin σ N (delay_ms_assign n m) hn
      intro j _
      exact hnever j
  · intro m
    constructor
    · exact loop_exit (List.replicate 1000 Step.tick) [] (delay_ms_assign 1000 m)
        (show (1000 : Nat) < 4294967296 by decide)
        (by rw [ticks_replicate_tick]; exact Nat.le_refl 1000)
        (fun p q hpq => absurd hpq (replicate_tick_no_poll 1000 p q))
    · intro k j hk
      apply loop_spin _ (delay_ms_assign 1000 m) (show (1000 : Nat) < 4294967296 by decide)
      intro p q hpq
      show ticks p < 1000
      have h1 : ticks (List.replicate k Step.tick ++ List.replicate j Step.poll) = k := by
        simp [ticks, List.count_replicate]
      have h2 : ticks p ≤ ticks (p ++ Step.poll :: q) := by
        simp [ticks]
      rw [← hpq, h1] at h2
      omega
  · intro m pre h
    rw [hrunz 5 (by decide) m pre]
    omega
  · intro m pre h
    rw [Ne, hrunz 5 (by decide) m pre]
    omega

/-- Witness for C2: `delay_ms(2)` on the alternating schedule returns at step 3, the
first poll with two ticks before it, and the counter reads zero after the two ticks. -/
theorem delay_returns_at_first_poll_after_n_ticks_witness :
    (2 : Nat) < 4294967296 ∧
    ((run (delay_ms_assign 2 ⟨9, ⟨3, 21000, 0⟩, 8, 0, 0⟩)
        [Step.tick, Step.poll, Step.tick]).tDelay = 0 ↔
      2 ≤ ticks [Step.tick, Step.poll, Step.tick]) ∧
    delay_ms 2 ⟨9, ⟨3, 21000, 0⟩, 8, 0, 0⟩ (upto alternating 6) =
      some (⟨0, ⟨3, 21000, 0⟩, 8, 0, 0⟩, [Step.tick, Step.poll]) :=
  ⟨by decide,
   (delay_returns_at_first_poll_after_n_ticks.1 2 (by decide)
      ⟨9, ⟨3, 21000, 0⟩, 8, 0, 0⟩).1 [Step.tick, Step.poll, Step.tick],
   ((delay_returns_at_first_poll_after_n_ticks.1 2 (by decide)
      ⟨9, ⟨3, 21000, 0⟩, 8, 0, 0⟩).2.2.2.2.1 alternating 3 (by decide) (by decide)
      (by decide) 6).trans (by decide)⟩

/-! ## Timer configuration -/

theorem init_systick_SysTick (s cen : Nat) (m : Machine) :
    (init_systick s cen m).SysTick = ⟨((cen <<< 1) % 4294967296) ||| 1, s, 0⟩ := by
  simp [init_systick]

theorem init_systick_eq (s cen : Nat) (m : Machine) :
    init_systick s cen m =
      { m with SysTick := ⟨((cen <<< 1) % 4294967296) ||| 1, s, 0⟩ } := by
  simp [init_systick]

theorem ctrl_value (cen : Nat) (h : cen < 256) :
    ((cen <<< 1) % 4294967296) ||| 1 = 2 * cen + 1 := by
  have h1 : cen <<< 1 = 2 ^ 1 * cen := by rw [Nat.shiftLeft_eq, Nat.mul_comm]
  have h2 : 2 ^ 1 * cen % 4294967296 = 2 ^ 1 * cen := Nat.mod_eq_of_lt (by omega)
  have h3 := Nat.mul_add_lt_is_or (show 1 < 2 ^ 1 by decide) cen
  rw [h1, h2, ← h3]

theorem moder_value (v : Nat) :
    (v &&& 0x00FFFFFF) ||| 0x55000000 = 0x55000000 + v % 0x1000000 := by
  have h1 : v &&& 0x00FFFFFF = v % 2 ^ 24 := Nat.and_pow_two_sub_one_eq_mod v 24
  have h2 := Nat.mul_add_lt_is_or (Nat.mod_lt v (show 0 < 2 ^ 24 by decide)) 0x55
  rw [h1, Nat.or_comm, ← h2]

/-- C6: evaluation of `init_systick` at enable values 0, 1 and 2.  With `cen = 1` the
interrupt-enable bit (bit 1 of CTRL) is set and with `cen = 0` it is clear; with the
nonzero value `cen = 2` the shift lands on bit 2: CTRL is `0b101` and bit 1 is clear.
In general, for an 8-bit `cen`, CTRL is `2 * cen + 1`, so bit 1 of CTRL is bit 0 of
`cen`. -/
theorem init_systick_interrupt_bit (s : Nat) (m : Machine) :
    (init_systick s 1 m).SysTick.CTRL = 3 ∧
    (init_systick s 1 m).SysTick.CTRL.testBit 1 = true ∧
    (init_systick s 0 m).SysTick.CTRL = 1 ∧
    (init_systick s 0 m).SysTick.CTRL.testBit 1 = false ∧
    (init_systick s 2 m).SysTick.CTRL = 5 ∧
    (init_systick s 2 m).SysTick.CTRL.testBit 1 = false ∧
    (∀ cen : Fin 256, (init_systick s cen m).SysTick.CTRL = 2 * cen + 1 ∧
      (init_systick s cen m).SysTick.CTRL.testBit 1 = (cen : Nat).testBit 0) := by
  refine ⟨?_, ?_, ?_, ?_, ?_, ?_, ?_⟩
  · rw [init_systick_SysTick]; rfl
  · rw [init_systick_SysTick]; dsimp only; decide
  · rw [init_systick_SysTick]; rfl
  · rw [init_systick_SysTick]; dsimp only; decide
  · rw [init_systick_SysTick]; rfl
  · rw [init_systick_SysTick]; dsimp only; decide
  · intro cen
    rw [init_systick_SysTick]
    show ((cen : Nat) <<< 1 % 4294967296 ||| 1) = 2 * cen + 1 ∧
      ((cen : Nat) <<< 1 % 4294967296 ||| 1).testBit 1 = (cen : Nat).testBit 0
    rw [ctrl_value cen cen.isLt]
    refine ⟨rfl, ?_⟩
    rw [Nat.testBit_succ]
    congr 1
    omega

/-- C7: `init_systick` overwrites the timer configuration.  Whatever CTRL, LOAD and
VAL held, afterwards LOAD is `s`, VAL is 0 and CTRL is `(cen << 1) | 1` reduced to 32
bits, and nothing outside the SysTick block changes; so the SysTick block after the
call is the same from any two prior machines, a second configuration wipes out the
first, and configuring twice with the same arguments equals configuring once. -/
theorem init_systick_overwrites (s cen : Nat) (m : Machine) :
    (init_systick s cen m).SysTick = ⟨((cen <<< 1) % 4294967296) ||| 1, s, 0⟩ ∧
    (∀ m1 : Machine, (init_systick s cen m1).SysTick = (init_systick s cen m).SysTick) ∧
    (∀ s1 c1, init_systick s cen (init_systick s1 c1 m) = init_systick s cen m) ∧
    init_systick s cen (init_systick s cen m) = init_systick s cen m ∧
    init_systick s cen m = { m with SysTick := (init_systick s cen m).SysTick } := by
  refine ⟨init_systick_SysTick s cen m, ?_, ?_, ?_, ?_⟩
  · intro m1
    rw [init_systick_SysTick, init_systick_SysTick]
  · intro s1 c1
    rw [init_systick_eq s cen, init_systick_eq s1 c1, init_systick_eq s cen]
  · rw [init_systick_eq s cen (init_systick s cen m), init_systick_eq s cen m]
  · rw [init_systick_SysTick]
    exact init_systick_eq s cen m

/-- C9: evaluation of `init_systick` at enable values 0, 1, 2 and 255.  With `cen` 0
or 1 the clock-source bit (bit 2 of CTRL) is clear and CTRL stays below 4; with
`cen = 2` CTRL is `0b101`, so bit 2 is set and the timer is clocked from the undivided
processor clock; with `cen = 255` CTRL is `0x1FF`, bits 2 to 8 all set. -/
theorem init_systick_clock_source_bit (s : Nat) (m : Machine) :
    (init_systick s 0 m).SysTick.CTRL.testBit 2 = false ∧
    (init_systick s 1 m).SysTick.CTRL.testBit 2 = false ∧
    (init_systick s 0 m).SysTick.CTRL < 4 ∧
    (init_systick s 1 m).SysTick.CTRL < 4 ∧
    (init_systick s 2 m).SysTick.CTRL.testBit 2 = true ∧
    4 ≤ (init_systick s 2 m).SysTick.CTRL ∧
    (init_systick s 255 m).SysTick.CTRL = 0x1FF := by
  refine ⟨?_, ?_, ?_, ?_, ?_, ?_, ?_⟩ <;> rw [init_systick_SysTick] <;> dsimp only <;> decide

/-! ## `main` -/

theorem main_round_some (m m1 : Machine) (sched rest : List Step)
    (h : delay_ms 1000 m sched = some (m1, rest)) :
    main_round m sched = some ({ m1 with GPIOD_ODR := m1.GPIOD_ODR ^^^ 0xF000 }, rest) := by
  unfold main_round
  rw [h]

theorem main_round_none (m : Machine) (sched : List Step)
    (h : delay_ms 1000 m sched = none) : main_round m sched = none := by
  unfold main_round
  rw [h]

/-- C8: `main` configures a 1 ms tick with the interrupt enabled.  The reload count
it passes, 21000, is the timer input clock 168000000 / 8 = 21000000 Hz times 1 ms, with
no remainder; the enable argument is 1; after `main`'s setup, whatever the clock
routine did to the machine, LOAD is 21000, VAL is 0 and CTRL is `0b011`: counter
enabled, interrupt enabled, clock source AHB/8.  A round of the main loop returns from
`delay_ms(1000)` at the first poll after 1000 ticks and not with fewer, and 1000 ticks
of 21000 counts are the 21000000 counts of one second. -/
theorem main_configures_one_ms_tick :
    SYSTICK_HZ = 21000000 ∧
    21000 = SYSCLK_HZ / 8 / 1000 ∧
    21000 * 1000 * 8 = SYSCLK_HZ ∧
    (∀ (f : Machine → Machine) (m : Machine),
      (main_setup f m).SysTick = (init_systick (SYSTICK_HZ / 1000) 1 (f m)).SysTick ∧
      (main_setup f m).SysTick = ⟨0b011, 21000, 0⟩ ∧
      (main_setup f m).SysTick.CTRL.testBit 0 = true ∧
      (main_setup f m).SysTick.CTRL.testBit 1 = true ∧
      (main_setup f m).SysTick.CTRL.testBit 2 = false) ∧
    (∀ m : Machine,
      main_round m (List.replicate 1000 Step.tick ++ [Step.poll]) =
        some ({ m with tDelay := 0, GPIOD_ODR := m.GPIOD_ODR ^^^ 0xF000 }, []) ∧
      (∀ k j, k < 1000 →
        main_round m (List.replicate k Step.tick ++ List.replicate j Step.poll) = none)) ∧
    1000 * 21000 = SYSTICK_HZ := by
  have hset : ∀ (f : Machine → Machine) (m : Machine),
      (main_setup f m).SysTick = ⟨0b011, 21000, 0⟩ := by
    intro f m
    show (init_systick 21000 1 (f m)).SysTick = _
    rw [init_systick_SysTick]
    rfl
  have hz : SYSTICK_HZ = 21000000 := by norm_num [SYSTICK_HZ, SYSCLK_HZ]
  have hms : SYSTICK_HZ / 1000 = 21000 := by rw [hz]
  refine ⟨hz, by norm_num [SYSCLK_HZ], by norm_num [SYSCLK_HZ], ?_, ?_, by rw [hz]⟩
  · intro f m
    refine ⟨?_, hset f m, ?_, ?_, ?_⟩
    · rw [hms]; rfl
    · rw [hset f m]; decide
    · rw [hset f m]; decide
    · rw [hset f m]; decide
  · intro m
    constructor
    · have h : delay_ms 1000 m (List.replicate 1000 Step.tick ++ [Step.poll]) =
          some ({ m with tDelay := 0 }, []) :=
        loop_exit (List.replicate 1000 Step.tick) [] (delay_ms_assign 1000 m)
          (show (1000 : Nat) < 4294967296 by decide)
          (by rw [ticks_replicate_tick]; exact Nat.le_refl 1000)
          (fun p q hpq => absurd hpq (replicate_tick_no_poll 1000 p q))
      exact main_round_some m _ _ _ h
    · intro k j hk
      have h : delay_ms 1000 m
          (List.replicate k Step.tick ++ List.replicate j Step.poll) = none := by
        apply loop_spin _ (delay_ms_assign 1000 m) (show (1000 : Nat) < 4294967296 by decide)
        intro p q hpq
        show ticks p < 1000
        have h1 : ticks (List.replicate k Step.tick ++ List.replicate j Step.poll) = k := by
          simp [ticks, List.count_replicate]
        have h2 : ticks p ≤ ticks (p ++ Step.poll :: q) := by
          simp [ticks]
        rw [← hpq, h1] at h2
        omega
      exact main_round_none m _ h

/-- Witness for C8: 999 ticks followed by three polls leave the main loop waiting. -/
theorem main_configures_one_ms_tick_witness :
    main_round ⟨0, ⟨3, 21000, 0⟩, 8, 0x55000000, 0xF000⟩
      (List.replicate 999 Step.tick ++ List.replicate 3 Step.poll) = none :=
  (main_configures_one_ms_tick.2.2.2.2.1 ⟨0, ⟨3, 21000, 0⟩, 8, 0x55000000, 0xF000⟩).2
    999 3 (by decide)

/-- C10: the pin-direction statements of `main` touch only pins 12-15.  For every
prior MODER value `v` the result is `(v & 0x00FFFFFF) | 0x55000000`, which is
`0x55000000 + v mod 2^24`: bits 31..24 are `0x55`, each of the four 2-bit fields of
pins 12 to 15 is `01`, bits 23..0 are those of `v`; no other cell of the machine
changes, and running the two statements again changes nothing.  In `main` they act on
the MODER value left by the clock routine. -/
theorem main_moder_sets_pins_12_to_15 (m : Machine) :
    (main_moder m).GPIOD_MODER = (m.GPIOD_MODER &&& 0x00FFFFFF) ||| 0x55000000 ∧
    (main_moder m).GPIOD_MODER = 0x55000000 + m.GPIOD_MODER % 0x1000000 ∧
    (main_moder m).GPIOD_MODER >>> 24 = 0x55 ∧
    ((main_moder m).GPIOD_MODER >>> 24) % 4 = 1 ∧
    ((main_moder m).GPIOD_MODER >>> 26) % 4 = 1 ∧
    ((main_moder m).GPIOD_MODER >>> 28) % 4 = 1 ∧
    ((main_moder m).GPIOD_MODER >>> 30) % 4 = 1 ∧
    (main_moder m).GPIOD_MODER % 0x1000000 = m.GPIOD_MODER % 0x1000000 ∧
    (∀ i : Fin 24, (main_moder m).GPIOD_MODER.testBit i = m.GPIOD_MODER.testBit i) ∧
    main_moder m = { m with GPIOD_MODER := (main_moder m).GPIOD_MODER } ∧
    main_moder (main_moder m) = main_moder m ∧
    (∀ f : Machine → Machine,
      (main_setup f m).GPIOD_MODER = ((f m).GPIOD_MODER &&& 0x00FFFFFF) ||| 0x55000000) := by
  have h0 : (main_moder m).GPIOD_MODER = (m.GPIOD_MODER &&& 0x00FFFFFF) ||| 0x55000000 := rfl
  have h1 : (main_moder m).GPIOD_MODER = 0x55000000 + m.GPIOD_MODER % 0x1000000 := by
    rw [h0, moder_value]
  have hmod : (main_moder m).GPIOD_MODER % 0x1000000 = m.GPIOD_MODER % 0x1000000 := by
    rw [h1]; omega
  refine ⟨h0, h1, ?_, ?_, ?_, ?_, ?_, hmod, ?_, rfl, ?_, ?_⟩
  · rw [h1, Nat.shiftRight_eq_div_pow]; omega
  · rw [h1, Nat.shiftRight_eq_div_pow]; omega
  · rw [h1, Nat.shiftRight_eq_div_pow]; omega
  · rw [h1, Nat.shiftRight_eq_div_pow]; omega
  · rw [h1, Nat.shiftRight_eq_div_pow]; omega
  · intro i
    have ha := Nat.testBit_mod_two_pow (main_moder m).GPIOD_MODER 24 i
    have hb := Nat.testBit_mod_two_pow m.GPIOD_MODER 24 i
    have hc : (main_moder m).GPIOD_MODER % 2 ^ 24 = m.GPIOD_MODER % 2 ^ 24 := hmod
    rw [hc, hb] at ha
    simpa [i.isLt] using ha.symm
  · have h2 : (main_moder (main_moder m)).GPIOD_MODER = (main_moder m).GPIOD_MODER := by
      have := moder_value (main_moder m).GPIOD_MODER
      have h3 : (main_moder (main_moder m)).GPIOD_MODER =
          ((main_moder m).GPIOD_MODER &&& 0x00FFFFFF) ||| 0x55000000 := rfl
      rw [h3, this, hmod, ← h1]
    show ({ main_moder m with GPIOD_MODER := (main_moder (main_moder m)).GPIOD_MODER } :
      Machine) = main_moder m
    rw [h2]
  · intro f
    rfl

end Systick
